import Mathlib

/-!
Verification of dipy/core/qball.py against its specification.

The Python module is shallowly embedded: numpy volumes are flattened into
Lean lists in the array's natural scan order, numpy integers become Int,
and the real-valued scalars flowing through the ODF computations are kept
generic over a linearly ordered commutative ring with division, so every
theorem below instantiates to exact rational or real arithmetic.
Transcendental external primitives (scipy's sph_harm-based real harmonic
evaluation, arctan2, arccos, the Legendre table lpn and numpy's pinv) are
parameters of the embedding: no claim below depends on their values.
Python exceptions are modelled with an Except monad carrying the message
raised at each raise site.
-/

/-- Python exception values raised by the embedded code; the message strings
are the ones appearing in the source (for exceptions raised inside numpy,
the message numpy produces). -/
inductive PyError where
  | valueError (msg : String)
  | indexError (msg : String)
  | typeError (msg : String)
  deriving DecidableEq, Repr

deriving instance DecidableEq for Except

/-- numpy dtypes relevant to the model; np.dtype(None) denotes float64. -/
inductive Dtype where
  | int32
  | int64
  | float32
  | float64
  deriving DecidableEq, Repr

/-- np.dtype applied to an optional dtype argument: None means float64. -/
def npDtypeOfOpt : Option Dtype → Dtype
  | none => .float64
  | some d => d

/-- Python equality test `dtype == other` where `other` may be None:
numpy's dtype __eq__ coerces its operand through np.dtype before
comparing, and np.dtype(None) is float64, so None compares equal exactly
to a float64 dtype. -/
def dtypeEqOpt : Option Dtype → Dtype → Bool
  | d, d' => decide (npDtypeOfOpt d = d')

/-- np.arange(start, stop, step) for a positive step. -/
def npArange (start stop step : Int) : List Int :=
  (List.range ((stop - start + step - 1).fdiv step).toNat).map
    (fun i : Nat => start + step * (i : Int))

/-- np.cumsum on a one-dimensional integer array. -/
def npCumsum (xs : List Int) : List Int := (xs.scanl (· + ·) 0).tail

/-- Boolean self-selection mask[mask]: the list of True entries of the mask. -/
def maskSelectTrue (mask : List Bool) : List Bool := mask.filter id

/-- Boolean-mask assignment `a[mask] = vals` performed on an all-zeros
integer array of the mask's shape (np.zeros(mask.shape, 'int32')):
True positions receive the successive values of vals, False positions
keep the zero. -/
def maskAssign : List Bool → List Int → List Int
  | [], _ => []
  | true :: ms, v :: vs => v :: maskAssign ms vs
  | true :: ms, [] => 0 :: maskAssign ms []
  | false :: ms, vs => 0 :: maskAssign ms vs

/-- A numpy array seen through its first axis: a dtype together with the
list of first-axis elements (each element abstractly of type alpha). -/
structure NpData (α : Type) where
  dtype : Dtype
  rows : List α
  deriving DecidableEq

/-- The ModelParams class of qball.py (the spec's MaskedVolumeStore):
the index volume `_imask` flattened in scan order, and the compacted
per-voxel data array `_data`. -/
structure ModelParams (α : Type) where
  imask : List Int
  data : NpData α
  deriving DecidableEq

/-- ModelParams.__init__ (qball.py lines 90-100):
computes indexes = mask[mask].cumsum(), scatters them over the mask into a
zero array, subtracts one everywhere, then compares data.shape[0] with
indexes[-1].  Reading indexes[-1] on an empty cumulative-sum array (an
all-False mask) raises numpy's IndexError before the shape check; a shape
mismatch raises the ValueError of the source. -/
def ModelParams.init {α : Type} (mask : List Bool) (data : NpData α) :
    Except PyError (ModelParams α) :=
  let indexes := npCumsum ((maskSelectTrue mask).map (fun _ => (1 : Int)))
  let imask := (maskAssign mask indexes).map (· - 1)
  match indexes.getLast? with
  | none => .error (.indexError "index -1 is out of bounds for axis 0 with size 0")
  | some last =>
    if (data.rows.length : Int) = last then .ok ⟨imask, data⟩
    else .error (.valueError "the number of data elements does not match mask")

/-- The `mask` property: _imask >= 0. -/
def ModelParams.maskView {α : Type} (mp : ModelParams α) : List Bool :=
  mp.imask.map (fun v => decide (0 ≤ v))

/-- ModelParams.__getitem__ (qball.py lines 122-125) for a basic slice
index a:b over the flattened scan order: a shallow copy whose _imask is
the sliced index volume; the data array is shared unchanged. -/
def ModelParams.getSlice {α : Type} (mp : ModelParams α) (a b : Nat) :
    ModelParams α :=
  { mp with imask := (mp.imask.drop a).take (b - a) }

/-- Fancy integer-array assignment rows[targets] = values, performed
left to right as numpy does. -/
def listAssignRows {α : Type} (rows : List α) (targets : List Int)
    (values : List α) : List α :=
  (targets.zip values).foldl (fun d rv => d.set rv.1.toNat rv.2) rows

/-- ModelParams.__setitem__ (qball.py lines 127-129) for a slice index a:b:
imask = self._imask[index]; self._data[imask[imask >= 0]] = values. -/
def ModelParams.setSlice {α : Type} (mp : ModelParams α) (a b : Nat)
    (values : List α) : ModelParams α :=
  let imask := (mp.imask.drop a).take (b - a)
  { mp with data := ⟨mp.data.dtype,
      listAssignRows mp.data.rows (imask.filter (fun v => decide (0 ≤ v))) values⟩ }

/-- ModelParams.__array__ (qball.py lines 131-135), the spec's toDense:
gathers self._data[self._imask[self.mask]] and, unless the requested dtype
compares equal to the native one (with None coercing to float64 under
numpy's dtype equality), applies astype.  The value cast performed by
astype is an external numpy primitive and is passed in as castFn. -/
def ModelParams.toArray {α : Type} [Inhabited α] (castFn : Dtype → α → α)
    (mp : ModelParams α) (dtype : Option Dtype) : NpData α :=
  let gathered := (mp.imask.filter (fun v => decide (0 ≤ v))).map
    (fun v => mp.data.rows.getD v.toNat default)
  if dtypeEqOpt dtype mp.data.dtype then ⟨mp.data.dtype, gathered⟩
  else ⟨npDtypeOfOpt dtype, gathered.map (castFn (npDtypeOfOpt dtype))⟩

/-- numpy slice assignment xs[off : off + vals.length] = vals
(clipped at the end of the buffer). -/
def listSetRange (xs : List Int) (off : Nat) (vals : List Int) : List Int :=
  xs.take off ++ vals.take (xs.length - off) ++ xs.drop (off + vals.length)

/-- The m_list fill loop of sph_harm_ind_list (qball.py lines 77-81):
m_list = np.empty(ncoef, 'int'); for ii in n_range:
m_list[offset : offset + 2 ii + 1] = np.arange(-ii, ii + 1).
The uninitialized contents of np.empty are modelled as zeros; for a valid
(even, nonnegative) sh_order the writes cover the whole buffer, so no
uninitialized entry survives. -/
def fillMList (ncoef : Nat) (n_range : List Int) : List Int :=
  (n_range.foldl
    (fun acc n =>
      (listSetRange acc.1 acc.2 (npArange (-n) (n + 1) 1), acc.2 + (2 * n + 1).toNat))
    ((List.replicate ncoef 0 : List Int), (0 : Nat))).1

/-- sph_harm_ind_list (qball.py lines 47-86): the parity check, then
n_range = np.arange(0, sh_order + 1, 2), n_list = np.repeat(n_range,
n_range * 2 + 1), ncoef = (sh_order + 2) * (sh_order + 1) / 2 (Python 2
floor division) and the m_list fill loop.  The trailing np.newaxis
reshapes carry no information in the flattened model. -/
def sph_harm_ind_list (sh_order : Int) : Except PyError (List Int × List Int) :=
  if sh_order % 2 ≠ 0 then
    .error (.valueError "sh_order must be an even integer >= 0")
  else
    let n_range := npArange 0 (sh_order + 1) 2
    let n_list := n_range.flatMap (fun n => List.replicate (2 * n + 1).toNat n)
    let ncoef := ((sh_order + 2) * (sh_order + 1)).fdiv 2
    let m_list := fillMList ncoef.toNat n_range
    .ok (m_list, n_list)

/-- A numpy n-dimensional array: its shape and its flattened contents in
scan order. -/
structure NDArray (α : Type) where
  shape : List Nat
  data : List α
  deriving DecidableEq

/-- ndarray.ndim. -/
def NDArray.ndim {α : Type} (a : NDArray α) : Nat := a.shape.length

/-- Fuel-driven splitting of a flat list into consecutive chunks of
length k (the fuel bounds the number of chunks). -/
def chunkAux {α : Type} (k : Nat) : Nat → List α → List (List α)
  | _, [] => []
  | 0, _ => []
  | fuel + 1, l => l.take k :: chunkAux k fuel (l.drop k)

/-- Split a flat array into its consecutive length-k rows. -/
def chunkList {α : Type} (k : Nat) (l : List α) : List (List α) :=
  if k = 0 then [] else chunkAux k l.length l

/-- The last-axis rows of an ndarray (the vectors that numpy's trailing
axis operations act on). -/
def NDArray.rows {α : Type} (a : NDArray α) : List (List α) :=
  chunkList (a.shape.getLastD 1) a.data

/-- Boolean selection row[m] along a one-dimensional axis. -/
def listMaskSelect {α : Type} (row : List α) (m : List Bool) : List α :=
  (List.zip row m).filterMap (fun p => if p.2 then some p.1 else none)

/-- a[..., m] for a boolean mask m over the last axis. -/
def NDArray.selectLast {α : Type} (a : NDArray α) (m : List Bool) : NDArray α :=
  ⟨a.shape.dropLast ++ [(m.filter id).length],
   (a.rows.map (fun r => listMaskSelect r m)).flatten⟩

/-- The shape np.broadcast(a, b).shape of two broadcast-compatible shapes:
align trailing dimensions, pad the shorter with leading ones, take
pointwise maxima. -/
def broadcastShape (s t : List Nat) : List Nat :=
  let n := max s.length t.length
  (List.replicate (n - s.length) 1 ++ s).zipWith max (List.replicate (n - t.length) 1 ++ t)

/-- Assignment to the shape attribute, values.shape = s: numpy requires the
total size to be unchanged, else it raises a ValueError. -/
def NDArray.setShape {α : Type} (a : NDArray α) (s : List Nat) :
    Except PyError (NDArray α) :=
  if s.prod = a.data.length then .ok ⟨s, a.data⟩
  else .error (.valueError "total size of new array must be unchanged")

section RingOps

variable {α : Type} [LinearOrderedCommRing α] [Div α]

/-- np.dot of two one-dimensional vectors. -/
def dotProd (v w : List α) : α := (List.zipWith (· * ·) v w).sum

/-- Column j of a matrix stored as a list of rows. -/
def matCol (B : List (List α)) (j : Nat) : List α := B.map (fun r => r.getD j 0)

/-- np.dot(a, B) for a of shape (..., k) against a matrix B of shape
(k, P): every last-axis row of a is paired with every column of B. -/
def npDotMat (a : NDArray α) (B : List (List α)) : NDArray α :=
  let P := (B.headD []).length
  ⟨a.shape.dropLast ++ [P],
   (a.rows.map (fun r => (List.range P).map (fun j => dotProd r (matCol B j)))).flatten⟩

/-- Elementwise sum of two arrays of equal (hence broadcast) shape. -/
def npAdd (a b : NDArray α) : NDArray α :=
  ⟨broadcastShape a.shape b.shape, List.zipWith (· + ·) a.data b.data⟩

/-- Elementwise difference of two arrays of equal (hence broadcast) shape. -/
def npSub (a b : NDArray α) : NDArray α :=
  ⟨broadcastShape a.shape b.shape, List.zipWith (· - ·) a.data b.data⟩

/-- a[..., idx] for an integer-array index idx over the last axis
(indices are in range in every use the source makes). -/
def NDArray.indexLast (a : NDArray α) (idx : List Nat) : NDArray α :=
  ⟨a.shape.dropLast ++ [idx.length],
   (a.rows.map (fun r => idx.map (fun j => r.getD j 0))).flatten⟩

/-- The matrix real_sph_harm(m_list, n_list, theta, phi) built by
broadcasting the (ncoef, 1) index columns against the flat angle vectors:
entry (i, j) is the real harmonic of order m_i, degree n_i at angles
(theta_j, phi_j).  The scalar real-harmonic evaluation rsh is the
transcendental scipy-based primitive, a parameter of the embedding. -/
def mkCompMat (rsh : Int → Int → α → α → α) (ml nl : List Int)
    (theta phi : List α) : List (List α) :=
  (ml.zip nl).map (fun p => (theta.zip phi).map (fun q => rsh p.1 p.2 q.1 q.2))

end RingOps

/-- One element of a Python indexing tuple as used by ODF.__getitem__. -/
inductive IndexItem where
  | intIdx (i : Int)
  | sliceAll
  | ellipsis
  deriving DecidableEq

/-- The ODF class state (qball.py lines 137-209). -/
structure ODF (α : Type) where
  sh_order : Int
  ngrad : Nat
  fit_matrix : List (List α)
  b0 : NDArray α
  coef : NDArray α
  resid : Option (NDArray α)
  deriving DecidableEq

/-- The shape property: self._coef.shape[:-1]. -/
def ODF.shape {α : Type} (o : ODF α) : List Nat := o.coef.shape.dropLast

/-- The ndim property: self._coef.ndim - 1. -/
def ODF.ndim {α : Type} (o : ODF α) : Nat := o.coef.ndim - 1

/-- ODF.__getitem__ (qball.py lines 147-160): rejects tuples longer than
ndim, appends one full slice when an Ellipsis occurs, shallow-copies the
object and re-indexes _coef, and _resid when present.  The action of a
numpy indexing tuple on an array is the external primitive applyIndex. -/
def ODF.getitem {α : Type} (applyIndex : List IndexItem → NDArray α → NDArray α)
    (o : ODF α) (index : List IndexItem) : Except PyError (ODF α) :=
  if index.length > o.ndim then .error (.indexError "invalid index")
  else
    let index := if index.contains .ellipsis then index ++ [.sliceAll] else index
    .ok { o with coef := applyIndex index o.coef,
                 resid := o.resid.map (applyIndex index) }

/-- numpy's action of the indexing tuple (i,) holding one integer: select
the i-th subarray along axis 0 (used to instantiate applyIndex on a
concrete input; other tuples are left untouched by this instance). -/
def npIndexOne {α : Type} : List IndexItem → NDArray α → NDArray α
  | [IndexItem.intIdx i], a =>
    let stride := a.shape.tail.prod
    ⟨a.shape.tail, (a.data.drop (i.toNat * stride)).take stride⟩
  | _, a => a

section OdfOps

variable {α : Type} [LinearOrderedCommRing α] [Div α]

/-- The external numeric primitives consumed by ODF.__init__: numpy's
pseudo-inverse, the scalar real spherical harmonic, the Legendre values
lpn(sh_order, 0) indexed by degree, and the coordinate transcendentals. -/
structure NpPrims (α : Type) where
  pinv : List (List α) → List (List α)
  rsh : Int → Int → α → α → α
  lpn0 : Int → α
  atan2 : α → α → α
  acos : α → α

/-- The message of the fit error raised when sh_order needs more
coefficients than there are diffusion-weighted images. -/
def fitErrMsg (ngrad : Nat) : String :=
  "sh_order seems too high, there are only " ++ toString ngrad ++
    " diffusion weighted images in data"

/-- ODF.__init__ (qball.py lines 162-190).  data carries the acquisitions
on its last axis; the gradient table rows are gradX, gradY, gradZ.
Order of the source is kept: the sh_order validation, the dwi partition,
the angle conversion, the index list, the fit-error check (raised before
comp_mat, pinv or any further numeric work), then the Funk-Radon scaled
pseudo-inverse, b0, the coefficients and optionally the residuals. -/
def ODF.init (prims : NpPrims α) (data : NDArray α) (sh_order : Int)
    (gradX gradY gradZ : List α) (b_values : List α) (keep_resid : Bool) :
    Except PyError (ODF α) :=
  if sh_order % 2 ≠ 0 ∨ sh_order < 0 then
    .error (.valueError "sh_order must be an even integer >= 0")
  else
    let dwi := b_values.map (fun b => decide (0 < b))
    let ngrad := (dwi.filter id).length
    let theta := List.zipWith prims.atan2 (listMaskSelect gradY dwi)
      (listMaskSelect gradX dwi)
    let phi := (listMaskSelect gradZ dwi).map prims.acos
    match sph_harm_ind_list sh_order with
    | .error e => .error e
    | .ok (m_list, n_list) =>
      if m_list.length > ngrad then .error (.valueError (fitErrMsg ngrad))
      else
        let comp_mat := mkCompMat prims.rsh m_list n_list theta phi
        let fit0 := prims.pinv comp_mat
        let funk_radon := n_list.map prims.lpn0
        let fit_matrix := fit0.map (fun row => List.zipWith (· * ·) row funk_radon)
        let b0 := data.selectLast (dwi.map not)
        let coef := npDotMat (data.selectLast dwi) fit_matrix
        let resid :=
          if keep_resid then
            let unfit := List.zipWith (fun fr row => row.map (· / fr)) funk_radon comp_mat
            some (npSub (data.selectLast dwi) (npDotMat coef unfit))
          else none
        .ok ⟨sh_order, ngrad, fit_matrix, b0, coef, resid⟩

/-- ODF.evaluate_at (qball.py lines 192-199): the comp matrix at the
flattened query angles, values = np.dot(self._coef, comp_mat), then the
in-place reshape values.shape = self.shape + np.broadcast(theta, phi).shape. -/
def ODF.evaluate_at (rsh : Int → Int → α → α → α) (o : ODF α)
    (theta_e phi_e : NDArray α) : Except PyError (NDArray α) :=
  match sph_harm_ind_list o.sh_order with
  | .error e => .error e
  | .ok (m_list, n_list) =>
    let comp_mat := mkCompMat rsh m_list n_list theta_e.data phi_e.data
    let values := npDotMat o.coef comp_mat
    values.setShape (o.shape ++ broadcastShape theta_e.shape phi_e.shape)

/-- ODF.evaluate_boot (qball.py lines 201-209) with the permutation passed
explicitly (when permute is None the source draws a fresh random
permutation, which the caller of the model supplies).  Subscripting a
None residual raises Python's TypeError.  No reshape is applied to the
result. -/
def ODF.evaluate_boot (rsh : Int → Int → α → α → α) (o : ODF α)
    (theta_e phi_e : NDArray α) (permute : List Nat) :
    Except PyError (NDArray α) :=
  match sph_harm_ind_list o.sh_order with
  | .error e => .error e
  | .ok (m_list, n_list) =>
    let comp_mat := mkCompMat rsh m_list n_list theta_e.data phi_e.data
    match o.resid with
    | none => .error (.typeError "NoneType object is not subscriptable")
    | some r =>
      .ok (npDotMat (npAdd o.coef (npDotMat (r.indexLast permute) o.fit_matrix))
        comp_mat)

end OdfOps

/-!
Helper lemmas about the MaskedVolumeStore constructor.
-/

/-- Number of True entries of a mask. -/
def countTrue (mask : List Bool) : Nat := (mask.filter id).length

/-- Reference description of the index volume the constructor computes:
position-wise, the i-th True position (in scan order, counting from c)
holds c + i and every False position holds -1. -/
def imaskSpec : List Bool → Nat → List Int
  | [], _ => []
  | true :: ms, c => (c : Int) :: imaskSpec ms (c + 1)
  | false :: ms, c => -1 :: imaskSpec ms c

lemma scanl_add_replicate (m n : Nat) :
    List.scanl (· + ·) (m : Int) (List.replicate n 1) =
      (List.range' m (n + 1)).map Int.ofNat := by
  induction n generalizing m with
  | zero => simp [List.scanl, List.range']
  | succ k ih =>
    rw [List.replicate_succ, List.scanl]
    have h1 : (m : Int) + 1 = ((m + 1 : Nat) : Int) := by push_cast; ring
    rw [h1, ih (m + 1)]
    simp [List.range']

lemma npCumsum_replicate_one (n : Nat) :
    npCumsum (List.replicate n 1) = (List.range' 1 n).map Int.ofNat := by
  unfold npCumsum
  have h0 : ((0 : Nat) : Int) = (0 : Int) := rfl
  rw [← h0, scanl_add_replicate 0 n]
  cases n with
  | zero => simp [List.range']
  | succ k => simp [List.range']

lemma maskAssign_range (mask : List Bool) (c : Nat) :
    (maskAssign mask ((List.range' (c + 1) (countTrue mask)).map Int.ofNat)).map
        (· - 1) = imaskSpec mask c := by
  induction mask generalizing c with
  | nil => simp [maskAssign, imaskSpec]
  | cons b ms ih =>
    cases b with
    | false =>
      have hct : countTrue (false :: ms) = countTrue ms := by
        simp [countTrue, List.filter]
      rw [hct]
      show (maskAssign (false :: ms) _).map (· - 1) = imaskSpec (false :: ms) c
      rw [maskAssign, imaskSpec]
      simp only [List.map_cons]
      congr 1
      exact ih c
    | true =>
      have hct : countTrue (true :: ms) = countTrue ms + 1 := by
        simp [countTrue, List.filter]
      rw [hct]
      have hr : List.range' (c + 1) (countTrue ms + 1) =
          (c + 1) :: List.range' (c + 2) (countTrue ms) := by
        simp [List.range']
      rw [hr]
      show (maskAssign (true :: ms) _).map (· - 1) = imaskSpec (true :: ms) c
      rw [List.map_cons, maskAssign, imaskSpec]
      simp only [List.map_cons]
      congr 1
      · simp only [Int.ofNat_eq_natCast]
        push_cast
        ring
      · exact ih (c + 1)

lemma maskSelect_ones (mask : List Bool) :
    (maskSelectTrue mask).map (fun _ => (1 : Int)) =
      List.replicate (countTrue mask) 1 := by
  rw [maskSelectTrue, List.map_const']
  rfl

lemma range'_map_getLast (s k : Nat) :
    ((List.range' s (k + 1)).map Int.ofNat).getLast? = some ((s + k : Nat) : Int) := by
  rw [List.range'_concat]
  simp

/-- Complete characterization of ModelParams.__init__ as the source
computes it. -/
lemma init_spec {α : Type} (mask : List Bool) (d : NpData α) :
    ModelParams.init mask d =
      if countTrue mask = 0 then
        .error (.indexError "index -1 is out of bounds for axis 0 with size 0")
      else if d.rows.length = countTrue mask then .ok ⟨imaskSpec mask 0, d⟩
      else .error (.valueError "the number of data elements does not match mask") := by
  unfold ModelParams.init
  simp only [maskSelect_ones, npCumsum_replicate_one]
  cases hk : countTrue mask with
  | zero => simp [List.range']
  | succ k =>
    rw [range'_map_getLast 1 k]
    simp only [if_neg (Nat.succ_ne_zero k)]
    have hmr : (maskAssign mask ((List.range' 1 (k + 1)).map Int.ofNat)).map (· - 1)
        = imaskSpec mask 0 := by
      have := maskAssign_range mask 0
      rw [hk] at this
      simpa using this
    rw [hmr]
    by_cases hlen : d.rows.length = k + 1
    · rw [if_pos hlen]
      have : (d.rows.length : Int) = ((1 + k : Nat) : Int) := by
        rw [hlen]; push_cast; ring
      rw [if_pos this]
    · rw [if_neg hlen]
      have : ¬ ((d.rows.length : Int) = ((1 + k : Nat) : Int)) := by
        intro hc
        apply hlen
        omega
      rw [if_neg this]

lemma imaskSpec_filter (mask : List Bool) (c : Nat) :
    (imaskSpec mask c).filter (fun v => decide (0 ≤ v)) =
      (List.range' c (countTrue mask)).map Int.ofNat := by
  induction mask generalizing c with
  | nil => simp [imaskSpec, countTrue]
  | cons b ms ih =>
    cases b with
    | false =>
      have hct : countTrue (false :: ms) = countTrue ms := by
        simp [countTrue, List.filter]
      rw [imaskSpec, hct, List.filter_cons]
      simp only [decide_eq_true_eq]
      rw [if_neg (by norm_num)]
      exact ih c
    | true =>
      have hct : countTrue (true :: ms) = countTrue ms + 1 := by
        simp [countTrue, List.filter]
      rw [imaskSpec, hct, List.filter_cons]
      have h0 : (decide (0 ≤ (c : Int)) = true) := by simp
      rw [if_pos h0]
      have hr : List.range' c (countTrue ms + 1) =
          c :: List.range' (c + 1) (countTrue ms) := by
        simp [List.range']
      rw [hr, List.map_cons, ih (c + 1)]
      norm_cast

lemma imaskSpec_neg_iff (mask : List Bool) (c : Nat) (i : Nat) (h : i < mask.length) :
    ((imaskSpec mask c).getD i 0 = -1 ↔ mask.getD i true = false) := by
  induction mask generalizing c i with
  | nil => simp at h
  | cons b ms ih =>
    cases i with
    | zero =>
      cases b with
      | false => simp [imaskSpec]
      | true =>
        simp only [imaskSpec, List.getD_cons_zero]
        constructor
        · intro hc
          exact absurd hc (by omega)
        · intro hc
          simp at hc
    | succ j =>
      have hj : j < ms.length := by simpa using h
      cases b with
      | false =>
        simpa [imaskSpec] using ih c j hj
      | true =>
        simpa [imaskSpec] using ih (c + 1) j hj

lemma listAssignRows_length {α : Type} (rows : List α) (targets : List Int)
    (values : List α) :
    (listAssignRows rows targets values).length = rows.length := by
  unfold listAssignRows
  generalize targets.zip values = pairs
  induction pairs generalizing rows with
  | nil => rfl
  | cons p ps ih =>
    rw [List.foldl_cons, ih]
    exact List.length_set rows p.1.toNat p.2

lemma listAssignRows_getElem_of_notMem {α : Type} (rows : List α)
    (targets : List Int) (values : List α) (j : Nat)
    (h : ∀ v ∈ targets, v.toNat ≠ j) :
    (listAssignRows rows targets values)[j]? = rows[j]? := by
  unfold listAssignRows
  induction targets generalizing rows values with
  | nil => rfl
  | cons t ts ih =>
    cases values with
    | nil => rfl
    | cons v vs =>
      rw [List.zip_cons_cons, List.foldl_cons]
      have ht : t.toNat ≠ j := h t (List.mem_cons_self t ts)
      have hrec := ih (rows.set t.toNat v) vs
        (fun w hw => h w (List.mem_cons_of_mem t hw))
      rw [show (ts.zip vs).foldl (fun d rv => d.set rv.1.toNat rv.2) (rows.set t.toNat v)
            = listAssignRows (rows.set t.toNat v) ts vs from rfl] at *
      rw [hrec]
      exact List.getElem?_set_ne ht

lemma map_getD_range {α : Type} [Inhabited α] (rows : List α) :
    (List.range rows.length).map (fun i => rows.getD i default) = rows := by
  apply List.ext_getElem
  · simp
  · intro i h1 h2
    have hi : i < rows.length := by simpa using h2
    simp [List.getD_eq_getElem rows default hi, List.getElem?_eq_getElem hi]

/-- C9 counterexample input facts, reused nowhere else. -/
theorem C9_counterexample :
    ([] : List Int).length = countTrue [false]
    ∧ ModelParams.init [false] (⟨Dtype.int32, ([] : List Int)⟩ : NpData Int)
        = .error (.indexError "index -1 is out of bounds for axis 0 with size 0") := by
  constructor
  · decide
  · decide

/-- C9 (amended): construction fails with the data-shape ValueError exactly
when the mask has a True entry and the row count mismatches its True-count;
it succeeds exactly when the mask has a True entry and the row count
matches; for an all-False mask it always fails, with numpy's IndexError
raised by indexes[-1], even when the row count (zero) matches the
True-count. -/
theorem C9_init_characterization {α : Type} (mask : List Bool) (d : NpData α) :
    (0 < countTrue mask → d.rows.length ≠ countTrue mask →
      ModelParams.init mask d
        = .error (.valueError "the number of data elements does not match mask"))
    ∧ (0 < countTrue mask → d.rows.length = countTrue mask →
      ModelParams.init mask d = .ok ⟨imaskSpec mask 0, d⟩)
    ∧ (countTrue mask = 0 →
      ModelParams.init mask d
        = .error (.indexError "index -1 is out of bounds for axis 0 with size 0")) := by
  rw [init_spec]
  refine ⟨?_, ?_, ?_⟩
  · intro h1 h2
    rw [if_neg (by omega), if_neg h2]
  · intro h1 h2
    rw [if_neg (by omega), if_pos h2]
  · intro h1
    rw [if_pos h1]

theorem C9_witness :
    (ModelParams.init [true] (⟨Dtype.int32, ([5, 6] : List Int)⟩ : NpData Int)
      = .error (.valueError "the number of data elements does not match mask"))
    ∧ (ModelParams.init [true] (⟨Dtype.int32, ([5] : List Int)⟩ : NpData Int)
      = .ok ⟨imaskSpec [true] 0, ⟨Dtype.int32, [5]⟩⟩)
    ∧ (ModelParams.init [false] (⟨Dtype.int32, ([5] : List Int)⟩ : NpData Int)
      = .error (.indexError "index -1 is out of bounds for axis 0 with size 0")) :=
  ⟨(C9_init_characterization [true] ⟨Dtype.int32, [5, 6]⟩).1 (by decide) (by decide),
   (C9_init_characterization [true] ⟨Dtype.int32, [5]⟩).2.1 (by decide) (by decide),
   (C9_init_characterization [false] ⟨Dtype.int32, [5]⟩).2.2 (by decide)⟩

/-- C10: for an all-False mask, construction always raises the IndexError
produced by reading the last element of the empty cumulative-sum array,
whatever the data array is (in particular for zero rows): a store with no
masked voxels can never be constructed. -/
theorem C10_allFalse_mask_always_fails {α : Type} (mask : List Bool)
    (d : NpData α) (h : ∀ b ∈ mask, b = false) :
    ModelParams.init mask d
      = .error (.indexError "index -1 is out of bounds for axis 0 with size 0") := by
  rw [init_spec]
  have hct : countTrue mask = 0 := by
    unfold countTrue
    have : mask.filter id = [] := by
      rw [List.filter_eq_nil_iff]
      intro a ha
      simp [h a ha]
    rw [this]
    rfl
  rw [if_pos hct]

theorem C10_witness :
    ModelParams.init [false, false] (⟨Dtype.int32, ([] : List Int)⟩ : NpData Int)
      = .error (.indexError "index -1 is out of bounds for axis 0 with size 0") :=
  C10_allFalse_mask_always_fails [false, false] ⟨Dtype.int32, []⟩ (by decide)

/-- C1 counterexample: on mask [True, True] with two data rows, slicing the
store to its first position yields a view whose data still has two rows but
whose set of non-negative index entries is the singleton set containing 0,
not the full set of row indices required by the invariant: the claim that
every subsequent operation preserves the invariant fails at __getitem__. -/
theorem C1_counterexample :
    (ModelParams.init [true, true] (⟨Dtype.int32, ([10, 20] : List Int)⟩ : NpData Int)).map
        (fun mp => ((mp.getSlice 0 1).imask.filter (fun v => decide (0 ≤ v)),
          (mp.getSlice 0 1).data.rows.length))
      = .ok ([0], 2)
    ∧ ([(0 : Int)] ≠ (List.range 2).map Int.ofNat) := by
  constructor
  · decide
  · decide

/-- C1 (amended): the constructor establishes the invariant — the index
volume is -1 exactly at False mask positions, and its non-negative entries
read in scan order are exactly 0, 1, ..., rowCount - 1 (hence no
duplicates); `set` preserves this invariant on its result; indexing
(modelled for slices) yields a view whose data is unchanged and whose
non-negative index entries form a subsequence of 0, ..., rowCount - 1
(distinct, in range) but possibly a strict subset, so indexing alone does
not preserve the full surjectivity invariant. -/
theorem C1_index_invariant {α : Type} (mask : List Bool) (d : NpData α)
    (mp : ModelParams α) (h : ModelParams.init mask d = .ok mp) :
    (∀ i, i < mask.length → ((mp.imask.getD i 0 = -1) ↔ mask.getD i true = false))
    ∧ mp.imask.filter (fun v => decide (0 ≤ v))
        = (List.range mp.data.rows.length).map Int.ofNat
    ∧ (∀ a b values,
        (mp.setSlice a b values).imask.filter (fun v => decide (0 ≤ v))
          = (List.range (mp.setSlice a b values).data.rows.length).map Int.ofNat)
    ∧ (∀ a b, (mp.getSlice a b).data = mp.data
        ∧ ((mp.getSlice a b).imask.filter (fun v => decide (0 ≤ v))).Sublist
            ((List.range mp.data.rows.length).map Int.ofNat)) := by
  rw [init_spec] at h
  by_cases h0 : countTrue mask = 0
  · rw [if_pos h0] at h
    exact absurd h (by simp)
  rw [if_neg h0] at h
  by_cases hlen : d.rows.length = countTrue mask
  · rw [if_pos hlen] at h
    have hmp : mp = ⟨imaskSpec mask 0, d⟩ := by
      cases h
      rfl
    subst hmp
    have hfil : (imaskSpec mask 0).filter (fun v => decide (0 ≤ v))
        = (List.range d.rows.length).map Int.ofNat := by
      rw [imaskSpec_filter mask 0, hlen, List.range_eq_range']
    refine ⟨?_, hfil, ?_, ?_⟩
    · intro i hi
      exact imaskSpec_neg_iff mask 0 i hi
    · intro a b values
      show (imaskSpec mask 0).filter _ = (List.range (listAssignRows _ _ _).length).map _
      rw [listAssignRows_length]
      exact hfil
    · intro a b
      refine ⟨rfl, ?_⟩
      rw [← hfil]
      exact List.Sublist.filter _
        (((List.take_sublist _ _).trans (List.drop_sublist _ _)))
  · rw [if_neg hlen] at h
    exact absurd h (by simp)

theorem C1_witness :
    (∀ i, i < ([false, true, true] : List Bool).length →
      (((⟨[-1, 0, 1], ⟨Dtype.int32, [10, 20]⟩⟩ : ModelParams Int).imask.getD i 0 = -1)
        ↔ ([false, true, true] : List Bool).getD i true = false))
    ∧ (⟨[-1, 0, 1], ⟨Dtype.int32, [10, 20]⟩⟩ : ModelParams Int).imask.filter
        (fun v => decide (0 ≤ v)) = (List.range 2).map Int.ofNat
    ∧ (∀ a b values,
        ((⟨[-1, 0, 1], ⟨Dtype.int32, [10, 20]⟩⟩ : ModelParams Int).setSlice a b values).imask.filter
            (fun v => decide (0 ≤ v))
          = (List.range (((⟨[-1, 0, 1], ⟨Dtype.int32, [10, 20]⟩⟩ : ModelParams Int).setSlice
              a b values).data.rows.length)).map Int.ofNat)
    ∧ (∀ a b, ((⟨[-1, 0, 1], ⟨Dtype.int32, [10, 20]⟩⟩ : ModelParams Int).getSlice a b).data
          = (⟨[-1, 0, 1], ⟨Dtype.int32, [10, 20]⟩⟩ : ModelParams Int).data
        ∧ (((⟨[-1, 0, 1], ⟨Dtype.int32, [10, 20]⟩⟩ : ModelParams Int).getSlice a b).imask.filter
            (fun v => decide (0 ≤ v))).Sublist ((List.range 2).map Int.ofNat)) :=
  C1_index_invariant [false, true, true] ⟨Dtype.int32, [10, 20]⟩
    ⟨[-1, 0, 1], ⟨Dtype.int32, [10, 20]⟩⟩ (by decide)

/-- C8: writing through a slice of the store only touches the data rows
addressed by the non-negative entries of the sliced index volume; -1
entries are skipped silently (the operation is total), and every data row
whose position is not among those non-negative entries is unchanged. -/
theorem C8_set_frame {α : Type} (mp : ModelParams α) (a b : Nat)
    (values : List α) (j : Nat)
    (h : (j : Int) ∉ ((mp.imask.drop a).take (b - a)).filter (fun v => decide (0 ≤ v))) :
    (mp.setSlice a b values).data.rows[j]? = mp.data.rows[j]?
    ∧ (mp.setSlice a b values).data.dtype = mp.data.dtype := by
  refine ⟨?_, rfl⟩
  show (listAssignRows mp.data.rows _ values)[j]? = _
  apply listAssignRows_getElem_of_notMem
  intro v hv hvj
  have hvpos : (0 : Int) ≤ v := by
    have := List.of_mem_filter hv
    simpa using this
  apply h
  have : v = (j : Int) := by omega
  rwa [this] at hv

theorem C8_witness :
    ((⟨[-1, 0, 1], ⟨Dtype.int32, [10, 20]⟩⟩ : ModelParams Int).setSlice 0 2
        [99, 98]).data.rows[1]? = some 20
    ∧ (((0 : Nat) : Int) ∉ (((⟨[-1, 0, 1], ⟨Dtype.int32, [10, 20]⟩⟩ :
        ModelParams Int).imask.drop 0).take 1).filter (fun v => decide (0 ≤ v))) := by
  constructor
  · have := (C8_set_frame (⟨[-1, 0, 1], ⟨Dtype.int32, [10, 20]⟩⟩ : ModelParams Int)
      0 2 [99, 98] 1 (by decide)).1
    rw [this]
    decide
  · decide

/-- C2 counterexample: for mask [False, True] over int32 data with one row,
the default-dtype __array__ call returns one row (rowCount, not the mask's
volume size two) and dtype float64 (None coerces to float64 under numpy's
dtype equality, which differs from the native int32, so astype(None) casts
the rows to float64): both halves of the claim — volume-shaped output, and
identity cast for the unspecified dtype — fail. -/
theorem C2_counterexample :
    (ModelParams.init [false, true] (⟨Dtype.int32, ([7] : List Int)⟩ : NpData Int)).map
        (fun mp => ((mp.toArray (fun _ v => v) none).rows.length,
          (mp.toArray (fun _ v => v) none).dtype))
      = .ok (1, Dtype.float64)
    ∧ (1 ≠ ([false, true] : List Bool).length ∧ Dtype.float64 ≠ Dtype.int32) := by
  constructor
  · decide
  · decide

/-- C2 (amended): __array__ materializes the compacted masked rows in scan
order — for a freshly constructed store this is exactly the data array,
of length the mask's True-count, not a volume-shaped array.  The cast is
skipped exactly when the requested dtype, with the unspecified default
None coerced by numpy to float64, equals the data's native dtype: an
explicit native dtype is an identity no-op; the default is an identity
no-op only for float64-native data, and for any other native dtype the
default casts the rows to float64 via astype(None). -/
theorem C2_toDense_compacted {α : Type} [Inhabited α] (mask : List Bool)
    (d : NpData α) (mp : ModelParams α) (castFn : Dtype → α → α)
    (h : ModelParams.init mask d = .ok mp) :
    mp.toArray castFn (some d.dtype) = ⟨d.dtype, d.rows⟩
    ∧ (mp.toArray castFn (some d.dtype)).rows.length = countTrue mask
    ∧ (d.dtype = Dtype.float64 → mp.toArray castFn none = ⟨Dtype.float64, d.rows⟩)
    ∧ (d.dtype ≠ Dtype.float64 →
        mp.toArray castFn none = ⟨Dtype.float64, d.rows.map (castFn Dtype.float64)⟩) := by
  rw [init_spec] at h
  by_cases h0 : countTrue mask = 0
  · rw [if_pos h0] at h
    exact absurd h (by simp)
  rw [if_neg h0] at h
  by_cases hlen : d.rows.length = countTrue mask
  · rw [if_pos hlen] at h
    have hmp : mp = ⟨imaskSpec mask 0, d⟩ := by
      cases h
      rfl
    subst hmp
    have hgather : ((imaskSpec mask 0).filter (fun v => decide (0 ≤ v))).map
        (fun v => d.rows.getD v.toNat default) = d.rows := by
      rw [imaskSpec_filter mask 0, ← hlen, ← List.range_eq_range', List.map_map]
      have : ((fun v : Int => d.rows.getD v.toNat default) ∘ Int.ofNat)
          = fun i : Nat => d.rows.getD i default := by
        funext i
        simp
      rw [this]
      exact map_getD_range d.rows
    have htoA : ∀ dt : Option Dtype,
        ModelParams.toArray castFn ⟨imaskSpec mask 0, d⟩ dt
          = if dtypeEqOpt dt d.dtype then (⟨d.dtype, d.rows⟩ : NpData α)
            else ⟨npDtypeOfOpt dt, d.rows.map (castFn (npDtypeOfOpt dt))⟩ := by
      intro dt
      unfold ModelParams.toArray
      rw [hgather]
    refine ⟨?_, ?_, ?_, ?_⟩
    · rw [htoA]
      rw [if_pos (by simp [dtypeEqOpt, npDtypeOfOpt])]
    · rw [htoA]
      rw [if_pos (by simp [dtypeEqOpt, npDtypeOfOpt])]
      exact hlen
    · intro hf
      rw [htoA]
      rw [if_pos (by simp [dtypeEqOpt, npDtypeOfOpt, hf])]
      rw [hf]
    · intro hf
      rw [htoA]
      rw [if_neg ?_]
      · rfl
      · simp only [dtypeEqOpt, npDtypeOfOpt, decide_eq_true_eq]
        exact fun hc => hf hc.symm
  · rw [if_neg hlen] at h
    exact absurd h (by simp)

theorem C2_witness :
    (⟨[-1, 0], ⟨Dtype.int32, [7]⟩⟩ : ModelParams Int).toArray (fun _ v => v)
        (some Dtype.int32) = ⟨Dtype.int32, [7]⟩
    ∧ ((⟨[-1, 0], ⟨Dtype.int32, [7]⟩⟩ : ModelParams Int).toArray (fun _ v => v)
        (some Dtype.int32)).rows.length = countTrue [false, true]
    ∧ (⟨[-1, 0], ⟨Dtype.int32, [7]⟩⟩ : ModelParams Int).toArray (fun _ v => v) none
        = ⟨Dtype.float64, [7]⟩
    ∧ (⟨[-1, 0], ⟨Dtype.float64, [7]⟩⟩ : ModelParams Int).toArray (fun _ v => v) none
        = ⟨Dtype.float64, [7]⟩ :=
  ⟨(C2_toDense_compacted [false, true] ⟨Dtype.int32, [7]⟩
      ⟨[-1, 0], ⟨Dtype.int32, [7]⟩⟩ (fun _ v => v) (by decide)).1,
   (C2_toDense_compacted [false, true] ⟨Dtype.int32, [7]⟩
      ⟨[-1, 0], ⟨Dtype.int32, [7]⟩⟩ (fun _ v => v) (by decide)).2.1,
   (C2_toDense_compacted [false, true] ⟨Dtype.int32, [7]⟩
      ⟨[-1, 0], ⟨Dtype.int32, [7]⟩⟩ (fun _ v => v) (by decide)).2.2.2 (by decide),
   (C2_toDense_compacted [false, true] ⟨Dtype.float64, [7]⟩
      ⟨[-1, 0], ⟨Dtype.float64, [7]⟩⟩ (fun _ v => v) (by decide)).2.2.1 rfl⟩

/-!
Helper lemmas about sph_harm_ind_list.
-/

lemma npArange_one (a b : Int) :
    npArange a b 1 = (List.range (b - a).toNat).map (fun i : Nat => a + (i : Int)) := by
  unfold npArange
  have h1 : (b - a + 1 - 1) = b - a := by ring
  rw [h1, Int.fdiv_one]
  refine List.map_congr_left ?_
  intro i _
  rw [one_mul]

lemma length_npArange_one (a b : Int) :
    (npArange a b 1).length = (b - a).toNat := by
  rw [npArange_one, List.length_map, List.length_range]

lemma mem_npArange_one {a b x : Int} : x ∈ npArange a b 1 ↔ a ≤ x ∧ x < b := by
  rw [npArange_one]
  simp only [List.mem_map, List.mem_range]
  constructor
  · rintro ⟨i, hi, rfl⟩
    omega
  · rintro ⟨h1, h2⟩
    exact ⟨(x - a).toNat, by omega, by omega⟩

lemma arangeSym_length (n : Int) :
    (npArange (-n) (n + 1) 1).length = (2 * n + 1).toNat := by
  rw [length_npArange_one]
  omega

lemma fillLoop_spec (ns : List Int) (done : List Int) (rest : Nat)
    (hrest : rest = (ns.map (fun n => (2 * n + 1).toNat)).sum) :
    (ns.foldl
      (fun acc n => (listSetRange acc.1 acc.2 (npArange (-n) (n + 1) 1),
        acc.2 + (2 * n + 1).toNat))
      (done ++ List.replicate rest 0, done.length)).1
      = done ++ ns.flatMap (fun n => npArange (-n) (n + 1) 1) := by
  induction ns generalizing done rest with
  | nil =>
    simp at hrest
    subst hrest
    simp
  | cons n ns ih =>
    rw [List.foldl_cons]
    have hrest' : rest = (2 * n + 1).toNat + (ns.map (fun n => (2 * n + 1).toNat)).sum := by
      simpa using hrest
    have hlenA : (npArange (-n) (n + 1) 1).length = (2 * n + 1).toNat :=
      arangeSym_length n
    have hstep : listSetRange (done ++ List.replicate rest 0) done.length
        (npArange (-n) (n + 1) 1)
        = (done ++ npArange (-n) (n + 1) 1) ++
            List.replicate ((ns.map (fun n => (2 * n + 1).toNat)).sum) 0 := by
      unfold listSetRange
      have ht1 : (done ++ List.replicate rest 0).take done.length = done :=
        List.take_left done _
      have ht2 : (npArange (-n) (n + 1) 1).take
          ((done ++ List.replicate rest 0).length - done.length)
          = npArange (-n) (n + 1) 1 := by
        apply List.take_of_length_le
        rw [List.length_append, List.length_replicate, hlenA]
        omega
      have ht3 : (done ++ List.replicate rest 0).drop
          (done.length + (npArange (-n) (n + 1) 1).length)
          = List.replicate ((ns.map (fun n => (2 * n + 1).toNat)).sum) 0 := by
        rw [hlenA, ← List.drop_drop, List.drop_left, List.drop_replicate]
        congr 1
        omega
      rw [ht1, ht2, ht3, List.append_assoc]
    rw [hstep]
    have hoff : done.length + (2 * n + 1).toNat
        = (done ++ npArange (-n) (n + 1) 1).length := by
      rw [List.length_append, hlenA]
    rw [hoff]
    rw [ih (done ++ npArange (-n) (n + 1) 1)
      ((ns.map (fun n => (2 * n + 1).toNat)).sum) rfl]
    rw [List.flatMap_cons, List.append_assoc]

lemma toNat_block_length (i : Nat) :
    ((2 * (2 * (i : Int)) + 1).toNat) = 4 * i + 1 := by
  omega

lemma sum_4i1 (k : Nat) :
    ((List.range (k + 1)).map (fun i => 4 * i + 1)).sum = (k + 1) * (2 * k + 1) := by
  induction k with
  | zero => rfl
  | succ j ih =>
    rw [List.range_succ, List.map_append, List.sum_append, ih]
    simp only [List.map_cons, List.map_nil, List.sum_cons, List.sum_nil]
    ring

lemma flatMap_congr2 {beta gamma : Type} (l : List beta) (f g : beta → List gamma)
    (h : forall a, a ∈ l → f a = g a) :
    l.flatMap f = l.flatMap g := by
  induction l with
  | nil => rfl
  | cons a l ih =>
    rw [List.flatMap_cons, List.flatMap_cons, h a (by simp),
      ih (fun b hb => h b (by simp [hb]))]

lemma ncoef_eval (k : Nat) :
    ((2 * (k : Int) + 2) * (2 * (k : Int) + 1)).fdiv 2
      = ((k : Int) + 1) * (2 * (k : Int) + 1) := by
  have h2 : (2 * (k : Int) + 2) * (2 * (k : Int) + 1)
      = 2 * (((k : Int) + 1) * (2 * (k : Int) + 1)) := by ring
  rw [h2, Int.mul_fdiv_cancel_left _ (by norm_num)]

lemma ncoef_toNat (k : Nat) :
    (((k : Int) + 1) * (2 * (k : Int) + 1)).toNat = (k + 1) * (2 * k + 1) := by
  have h : ((k : Int) + 1) * (2 * (k : Int) + 1)
      = (((k + 1) * (2 * k + 1) : Nat) : Int) := by
    push_cast
    ring
  rw [h, Int.toNat_natCast]

lemma fillLoop_spec0 (ns : List Int) (rest : Nat)
    (hrest : rest = (ns.map (fun n => (2 * n + 1).toNat)).sum) :
    (ns.foldl
      (fun acc n => (listSetRange acc.1 acc.2 (npArange (-n) (n + 1) 1),
        acc.2 + (2 * n + 1).toNat))
      (List.replicate rest 0, 0)).1
      = ns.flatMap (fun n => npArange (-n) (n + 1) 1) := by
  have h := fillLoop_spec ns [] rest hrest
  simpa using h

/-- Reference value of m_list for sh_order = 2 k. -/
def mListSpec (k : Nat) : List Int :=
  (List.range (k + 1)).flatMap
    (fun i => npArange (-((2 * i : Nat) : Int)) (((2 * i : Nat) : Int) + 1) 1)

/-- Reference value of n_list for sh_order = 2 k. -/
def nListSpec (k : Nat) : List Int :=
  (List.range (k + 1)).flatMap
    (fun i => List.replicate (4 * i + 1) (((2 * i : Nat) : Int)))

lemma npArange_two (k : Nat) :
    npArange 0 (2 * (k : Int) + 1) 2 =
      (List.range (k + 1)).map (fun i => ((2 * i : Nat) : Int)) := by
  unfold npArange
  have hlen : ((2 * (k : Int) + 1 - 0 + 2 - 1).fdiv 2).toNat = k + 1 := by
    have h2 : (2 * (k : Int) + 1 - 0 + 2 - 1) = 2 * ((k : Int) + 1) := by ring
    rw [h2, Int.mul_fdiv_cancel_left _ (by norm_num)]
    omega
  rw [hlen]
  refine List.map_congr_left ?_
  intro i _
  push_cast
  ring

lemma sph_harm_ind_list_eval (k : Nat) :
    sph_harm_ind_list (2 * (k : Int)) = .ok (mListSpec k, nListSpec k) := by
  have hpar : ¬ ((2 * (k : Int)) % 2 ≠ 0) := by omega
  simp only [sph_harm_ind_list, if_neg hpar, npArange_two k]
  have hm : fillMList ((((2 * (k : Int) + 2) * (2 * (k : Int) + 1)).fdiv 2).toNat)
      ((List.range (k + 1)).map (fun i => ((2 * i : Nat) : Int))) = mListSpec k := by
    rw [ncoef_eval, ncoef_toNat]
    unfold fillMList
    rw [fillLoop_spec0]
    · rw [List.flatMap_map]
      rfl
    · rw [List.map_map]
      have hc : ((fun n : Int => (2 * n + 1).toNat) ∘ fun i : Nat => ((2 * i : Nat) : Int))
          = fun i : Nat => 4 * i + 1 := by
        funext i
        simp only [Function.comp_apply]
        omega
      rw [hc, sum_4i1]
  have hn : ((List.range (k + 1)).map (fun i => ((2 * i : Nat) : Int))).flatMap
      (fun n => List.replicate (2 * n + 1).toNat n) = nListSpec k := by
    rw [List.flatMap_map]
    refine flatMap_congr2 _ _ _ ?_
    intro i _
    have hcount : (2 * ((2 * i : Nat) : Int) + 1).toNat = 4 * i + 1 := by omega
    rw [hcount]
  rw [hm, hn]


lemma mListSpec_length (k : Nat) : (mListSpec k).length = (k + 1) * (2 * k + 1) := by
  unfold mListSpec
  rw [List.length_flatMap]
  have hc : (List.length ∘ fun i : Nat =>
      npArange (-((2 * i : Nat) : Int)) (((2 * i : Nat) : Int) + 1) 1)
      = fun i : Nat => 4 * i + 1 := by
    funext i
    simp only [Function.comp_apply]
    rw [length_npArange_one]
    omega
  rw [hc, sum_4i1]

lemma nListSpec_length (k : Nat) : (nListSpec k).length = (k + 1) * (2 * k + 1) := by
  unfold nListSpec
  rw [List.length_flatMap]
  have hc : (List.length ∘ fun i : Nat =>
      List.replicate (4 * i + 1) (((2 * i : Nat) : Int)))
      = fun i : Nat => 4 * i + 1 := by
    funext i
    simp only [Function.comp_apply]
    rw [List.length_replicate]
  rw [hc, sum_4i1]

lemma zip_flatMap_blocks {beta gamma : Type} (l : List Nat) (f : Nat → List beta)
    (g : Nat → List gamma) (h : ∀ a ∈ l, (f a).length = (g a).length) :
    (l.flatMap f).zip (l.flatMap g) = l.flatMap (fun a => (f a).zip (g a)) := by
  induction l with
  | nil => rfl
  | cons a l ih =>
    rw [List.flatMap_cons, List.flatMap_cons, List.flatMap_cons,
      List.zip_append (h a (List.mem_cons_self a l)),
      ih (fun b hb => h b (List.mem_cons_of_mem a hb))]

lemma zip_replicate_right {beta gamma : Type} (l : List beta) (c : gamma) :
    l.zip (List.replicate l.length c) = l.map (fun x => (x, c)) := by
  induction l with
  | nil => rfl
  | cons x l ih =>
    rw [List.length_cons, List.replicate_succ, List.zip_cons_cons, ih, List.map_cons]

lemma pairsSpec (k : Nat) :
    (mListSpec k).zip (nListSpec k)
      = (List.range (k + 1)).flatMap
          (fun i => (npArange (-((2 * i : Nat) : Int)) (((2 * i : Nat) : Int) + 1) 1).map
            (fun m => (m, ((2 * i : Nat) : Int)))) := by
  unfold mListSpec nListSpec
  rw [zip_flatMap_blocks]
  · refine flatMap_congr2 _ _ _ ?_
    intro i _
    have hl : (npArange (-((2 * i : Nat) : Int)) (((2 * i : Nat) : Int) + 1) 1).length
        = 4 * i + 1 := by
      rw [length_npArange_one]
      omega
    rw [← hl, zip_replicate_right]
  · intro a _
    rw [length_npArange_one, List.length_replicate]
    omega

lemma pairs_mem (k : Nat) (m n : Int) :
    (m, n) ∈ (mListSpec k).zip (nListSpec k)
      ↔ (n % 2 = 0 ∧ 0 ≤ n ∧ n ≤ 2 * (k : Int) ∧ -n ≤ m ∧ m ≤ n) := by
  rw [pairsSpec]
  simp only [List.mem_flatMap, List.mem_map, List.mem_range]
  constructor
  · rintro ⟨i, hi, x, hx, hpair⟩
    have hm := mem_npArange_one.mp hx
    cases hpair
    omega
  · rintro ⟨h1, h2, h3, h4, h5⟩
    refine ⟨n.toNat / 2, by omega, m, ?_, ?_⟩
    · rw [mem_npArange_one]
      constructor
      · omega
      · omega
    · have hcast : ((2 * (n.toNat / 2) : Nat) : Int) = n := by omega
      rw [hcast]

lemma npArange_pairwise_lt (a b : Int) : (npArange a b 1).Pairwise (· < ·) := by
  rw [npArange_one, List.pairwise_map]
  exact (List.pairwise_lt_range _).imp (fun h => by omega)

lemma pairs_pairwise (k : Nat) :
    ((mListSpec k).zip (nListSpec k)).Pairwise
      (fun p q : Int × Int => p.2 < q.2 ∨ (p.2 = q.2 ∧ p.1 < q.1)) := by
  rw [pairsSpec, List.flatMap_def, List.pairwise_flatten]
  constructor
  · intro l' hl'
    simp only [List.mem_map, List.mem_range] at hl'
    obtain ⟨i, hi, rfl⟩ := hl'
    rw [List.pairwise_map]
    refine (npArange_pairwise_lt _ _).imp ?_
    intro x y hxy
    right
    exact ⟨rfl, hxy⟩
  · rw [List.pairwise_map]
    refine (List.pairwise_lt_range (k + 1)).imp ?_
    intro i j hij x hx y hy
    left
    simp only [List.mem_map] at hx hy
    obtain ⟨mx, _, rfl⟩ := hx
    obtain ⟨my, _, rfl⟩ := hy
    show ((2 * i : Nat) : Int) < ((2 * j : Nat) : Int)
    omega

/-- C3: for every non-negative even sh_order, sph_harm_ind_list returns
exactly (sh_order + 2)(sh_order + 1)/2 index pairs; the pairs (m, n) are
precisely those with even degree n between 0 and sh_order and order m
between -n and n; and they are listed ordered by increasing degree n and
then increasing order m (which also makes them pairwise distinct). -/
theorem C3_indexList_enumeration (sh_order : Int)
    (h0 : 0 ≤ sh_order) (h2 : sh_order % 2 = 0) :
    ∃ ml nl, sph_harm_ind_list sh_order = .ok (ml, nl)
      ∧ (ml.length : Int) = ((sh_order + 2) * (sh_order + 1)).fdiv 2
      ∧ nl.length = ml.length
      ∧ (∀ m n : Int, (m, n) ∈ ml.zip nl ↔
          (n % 2 = 0 ∧ 0 ≤ n ∧ n ≤ sh_order ∧ -n ≤ m ∧ m ≤ n))
      ∧ (ml.zip nl).Pairwise
          (fun p q : Int × Int => p.2 < q.2 ∨ (p.2 = q.2 ∧ p.1 < q.1)) := by
  obtain ⟨k, hk⟩ : ∃ k : Nat, sh_order = 2 * (k : Int) :=
    ⟨sh_order.toNat / 2, by omega⟩
  subst hk
  refine ⟨mListSpec k, nListSpec k, sph_harm_ind_list_eval k, ?_, ?_, ?_,
    pairs_pairwise k⟩
  · rw [mListSpec_length, ncoef_eval]
    push_cast
    ring
  · rw [mListSpec_length, nListSpec_length]
  · intro m n
    rw [pairs_mem]

theorem C3_witness :
    ∃ ml nl, sph_harm_ind_list 2 = .ok (ml, nl)
      ∧ (ml.length : Int) = (((2 : Int) + 2) * (2 + 1)).fdiv 2
      ∧ nl.length = ml.length
      ∧ (∀ m n : Int, (m, n) ∈ ml.zip nl ↔
          (n % 2 = 0 ∧ 0 ≤ n ∧ n ≤ 2 ∧ -n ≤ m ∧ m ≤ n))
      ∧ (ml.zip nl).Pairwise
          (fun p q : Int × Int => p.2 < q.2 ∨ (p.2 = q.2 ∧ p.1 < q.1)) :=
  C3_indexList_enumeration 2 (by norm_num) (by decide)

/-- C6 counterexample: sh_order = -2 is negative, yet sph_harm_ind_list
does not raise: Python's -2 % 2 is 0, so the parity guard passes and the
function returns empty index lists. -/
theorem C6_counterexample :
    sph_harm_ind_list (-2) = .ok ([], []) ∧ (-2 : Int) < 0 := by
  constructor
  · decide
  · decide

/-- C6 (amended): sph_harm_ind_list raises the configuration error exactly
for odd sh_order; negative even sh_order passes the parity guard (Python's
modulo of a negative even number by 2 is 0) and returns without error. -/
theorem C6_indexList_error_iff_odd (sh_order : Int) :
    (sph_harm_ind_list sh_order
        = .error (.valueError "sh_order must be an even integer >= 0"))
      ↔ sh_order % 2 ≠ 0 := by
  unfold sph_harm_ind_list
  by_cases h : sh_order % 2 ≠ 0
  · rw [if_pos h]
    simp [h]
  · rw [if_neg h]
    simp [h]

theorem C6_witness :
    sph_harm_ind_list 3
      = .error (.valueError "sh_order must be an even integer >= 0")
    ∧ ¬ sph_harm_ind_list 4
      = .error (.valueError "sh_order must be an even integer >= 0") :=
  ⟨(C6_indexList_error_iff_odd 3).mpr (by decide),
   fun h => absurd ((C6_indexList_error_iff_odd 4).mp h) (by decide)⟩

/-- C4: when the number of diffusion-weighted acquisitions (b > 0) is
strictly smaller than the number of coefficients
(sh_order + 2)(sh_order + 1)/2 for a valid (even, non-negative) sh_order,
ODF.__init__ raises the fit error — and it does so for every choice of the
pseudo-inverse, harmonic, Legendre and coordinate primitives, so the error
is raised before the pseudo-inverse or any other linear-algebra
computation can contribute to the outcome. -/
theorem C4_fit_error_before_pinv {α : Type} [LinearOrderedCommRing α] [Div α]
    (prims : NpPrims α) (data : NDArray α) (sh_order : Int)
    (gradX gradY gradZ : List α) (b_values : List α) (keep_resid : Bool)
    (h0 : 0 ≤ sh_order) (h2 : sh_order % 2 = 0)
    (hfew : ((b_values.filter (fun b => decide (0 < b))).length : Int)
      < ((sh_order + 2) * (sh_order + 1)).fdiv 2) :
    ODF.init prims data sh_order gradX gradY gradZ b_values keep_resid
      = .error (.valueError
          (fitErrMsg (b_values.filter (fun b => decide (0 < b))).length)) := by
  obtain ⟨k, hk⟩ : ∃ k : Nat, sh_order = 2 * (k : Int) :=
    ⟨sh_order.toNat / 2, by omega⟩
  subst hk
  rw [ncoef_eval] at hfew
  have hng : ((b_values.map (fun b => decide ((0 : α) < b))).filter id).length
      = (b_values.filter (fun b => decide (0 < b))).length := by
    rw [List.filter_map]
    simp
  have hgt : (mListSpec k).length
      > (b_values.filter (fun b => decide ((0 : α) < b))).length := by
    rw [mListSpec_length]
    have := ncoef_toNat k
    omega
  simp only [ODF.init]
  rw [if_neg (by omega)]
  simp only [sph_harm_ind_list_eval k, hng]
  rw [if_pos hgt]

theorem C4_witness :
    ODF.init
      (⟨fun M => M, fun _ _ _ _ => 0, fun _ => 0, fun _ _ => 0, fun _ => 0⟩ :
        NpPrims Int)
      (⟨[1, 1], [5]⟩ : NDArray Int) 2 [1] [1] [1] [1] false
      = .error (.valueError (fitErrMsg 1)) :=
  C4_fit_error_before_pinv _ _ 2 _ _ _ _ _ (by norm_num) (by decide) (by decide)

/-- C5 counterexample: indexing a one-voxel-dimension model with the tuple
(0,) slices the coefficient array but leaves b0 as the whole original
array: the result's b0 is not the corresponding slice of the original b0,
refuting the claim that coefficient, residual and b0 are all sliced. -/
theorem C5_counterexample :
    ODF.getitem npIndexOne
        (⟨0, 1, [[1]], ⟨[2, 1], [7, 8]⟩, ⟨[2, 1], [5, 6]⟩, none⟩ : ODF Int)
        [IndexItem.intIdx 0]
      = .ok ⟨0, 1, [[1]], ⟨[2, 1], [7, 8]⟩, ⟨[1], [5]⟩, none⟩
    ∧ npIndexOne [IndexItem.intIdx 0] (⟨[2, 1], [7, 8]⟩ : NDArray Int) = ⟨[1], [7]⟩
    ∧ (⟨[2, 1], [7, 8]⟩ : NDArray Int) ≠ ⟨[1], [7]⟩ := by
  refine ⟨?_, ?_, ?_⟩
  · decide
  · decide
  · decide

/-- C5 (amended): for an index tuple no longer than the voxel
dimensionality, __getitem__ returns a shallow copy in which the
coefficient array and (when present) the residual array are re-indexed by
the tuple (with one full slice appended when the tuple contains an
Ellipsis), while b0 and the scalar fields are shared unchanged from the
original — b0 is NOT sliced; a tuple longer than the voxel dimensionality
raises the index error.  The action of a numpy index tuple on an array is
abstract (applyIndex), so the statement holds for every indexing
semantics. -/
theorem C5_getitem_slices {α : Type}
    (applyIndex : List IndexItem → NDArray α → NDArray α)
    (o : ODF α) (index : List IndexItem) :
    (index.length > o.ndim →
      ODF.getitem applyIndex o index = .error (.indexError "invalid index"))
    ∧ (index.length ≤ o.ndim →
      ∃ o2, ODF.getitem applyIndex o index = .ok o2
        ∧ o2.coef = applyIndex
            (if index.contains .ellipsis then index ++ [.sliceAll] else index) o.coef
        ∧ o2.resid = o.resid.map (applyIndex
            (if index.contains .ellipsis then index ++ [.sliceAll] else index))
        ∧ o2.b0 = o.b0 ∧ o2.sh_order = o.sh_order ∧ o2.ngrad = o.ngrad
        ∧ o2.fit_matrix = o.fit_matrix) := by
  constructor
  · intro hlong
    unfold ODF.getitem
    rw [if_pos hlong]
  · intro hok
    unfold ODF.getitem
    rw [if_neg (by omega)]
    exact ⟨_, rfl, rfl, rfl, rfl, rfl, rfl, rfl⟩

theorem C5_witness :
    (ODF.getitem npIndexOne
        (⟨0, 1, [[1]], ⟨[2, 1], [7, 8]⟩, ⟨[2, 1], [5, 6]⟩, none⟩ : ODF Int)
        [IndexItem.intIdx 0, IndexItem.intIdx 0]
      = .error (.indexError "invalid index"))
    ∧ (∃ o2, ODF.getitem npIndexOne
        (⟨0, 1, [[1]], ⟨[2, 1], [7, 8]⟩, ⟨[2, 1], [5, 6]⟩,
          some ⟨[2, 1], [3, 4]⟩⟩ : ODF Int) [IndexItem.sliceAll]
          = .ok o2
        ∧ o2.coef = npIndexOne
            (if ([IndexItem.sliceAll] : List IndexItem).contains .ellipsis then
              [IndexItem.sliceAll] ++ [.sliceAll] else [IndexItem.sliceAll])
            (⟨[2, 1], [5, 6]⟩ : NDArray Int)
        ∧ o2.resid = (some (⟨[2, 1], [3, 4]⟩ : NDArray Int)).map (npIndexOne
            (if ([IndexItem.sliceAll] : List IndexItem).contains .ellipsis then
              [IndexItem.sliceAll] ++ [.sliceAll] else [IndexItem.sliceAll]))
        ∧ o2.b0 = (⟨[2, 1], [7, 8]⟩ : NDArray Int) ∧ o2.sh_order = 0 ∧ o2.ngrad = 1
        ∧ o2.fit_matrix = [[1]]) :=
  ⟨(C5_getitem_slices npIndexOne
      ⟨0, 1, [[1]], ⟨[2, 1], [7, 8]⟩, ⟨[2, 1], [5, 6]⟩, none⟩
      [IndexItem.intIdx 0, IndexItem.intIdx 0]).1 (by decide),
   (C5_getitem_slices npIndexOne
      ⟨0, 1, [[1]], ⟨[2, 1], [7, 8]⟩, ⟨[2, 1], [5, 6]⟩, some ⟨[2, 1], [3, 4]⟩⟩
      [IndexItem.sliceAll]).2 (by decide)⟩

/-!
Helper lemmas for the bootstrap-evaluation claim.
-/

lemma chunkAux_flatten {α : Type} (k : Nat) (hk : 0 < k) :
    ∀ (fuel : Nat) (ls : List (List α)), (∀ l ∈ ls, l.length = k) →
      ls.length ≤ fuel → chunkAux k fuel ls.flatten = ls := by
  intro fuel
  induction fuel with
  | zero =>
    intro ls h hle
    have : ls = [] := List.length_eq_zero.mp (by omega)
    subst this
    rfl
  | succ f ih =>
    intro ls h hle
    cases ls with
    | nil => rfl
    | cons l ls' =>
      rw [List.flatten_cons]
      have hl : l.length = k := h l (List.mem_cons_self l ls')
      have hne : l ++ ls'.flatten ≠ [] := by
        intro hcon
        have hlc := congrArg List.length hcon
        rw [List.length_append, hl] at hlc
        simp at hlc
        omega
      obtain ⟨y, ys, hys⟩ := List.exists_cons_of_ne_nil hne
      rw [hys]
      rw [show chunkAux k (f + 1) (y :: ys)
          = (y :: ys).take k :: chunkAux k f ((y :: ys).drop k) from rfl]
      rw [← hys, List.take_left' hl, List.drop_left' hl]
      rw [ih ls' (fun b hb => h b (List.mem_cons_of_mem l hb)) (by simpa using hle)]

lemma chunk_flatten {α : Type} (k : Nat) (hk : 0 < k) (ls : List (List α))
    (h : ∀ l ∈ ls, l.length = k) : chunkList k ls.flatten = ls := by
  unfold chunkList
  rw [if_neg (by omega)]
  apply chunkAux_flatten k hk _ ls h
  have hlen : ls.flatten.length = k * ls.length := by
    rw [List.length_flatten]
    have hmc : ls.map List.length = List.replicate ls.length k := by
      rw [show ls.map List.length = ls.map (fun _ => k) from List.map_congr_left h,
        List.map_const']
    rw [hmc, List.sum_replicate, smul_eq_mul, Nat.mul_comm]
  rw [hlen]
  exact Nat.le_mul_of_pos_left _ hk

lemma chunkAux_length_exact {α : Type} (k : Nat) (hk : 0 < k) :
    ∀ (fuel c : Nat) (l : List α), l.length = c * k → c ≤ fuel →
      (chunkAux k fuel l).length = c := by
  intro fuel
  induction fuel with
  | zero =>
    intro c l hl hle
    have hc : c = 0 := by omega
    subst hc
    have : l = [] := List.length_eq_zero.mp (by omega)
    subst this
    rfl
  | succ f ih =>
    intro c l hl hle
    cases l with
    | nil =>
      have hc : c = 0 := by
        simp at hl
        omega
      subst hc
      rfl
    | cons x xs =>
      have hc : 0 < c := by
        by_contra hcon
        have : c = 0 := by omega
        subst this
        simp at hl
      obtain ⟨c', rfl⟩ : ∃ c', c = c' + 1 := ⟨c - 1, by omega⟩
      show ((x :: xs).take k :: chunkAux k f ((x :: xs).drop k)).length = c' + 1
      have hdrop : ((x :: xs).drop k).length = c' * k := by
        rw [List.length_drop]
        have hexp : (c' + 1) * k = c' * k + k := by ring
        rw [hexp] at hl
        simp at hl ⊢
        omega
      rw [List.length_cons, ih c' ((x :: xs).drop k) hdrop (by omega)]

lemma chunkList_length_exact {α : Type} (k c : Nat) (hk : 0 < k) (l : List α)
    (hl : l.length = c * k) : (chunkList k l).length = c := by
  unfold chunkList
  rw [if_neg (by omega)]
  exact chunkAux_length_exact k hk l.length c l hl (by rw [hl]; exact Nat.le_mul_of_pos_right _ hk)

lemma chunkAux_mem {α : Type} (k : Nat) :
    ∀ (fuel : Nat) (l : List α) (r : List α), r ∈ chunkAux k fuel l →
      ∀ x ∈ r, x ∈ l := by
  intro fuel
  induction fuel with
  | zero =>
    intro l r hr
    cases l with
    | nil => simp [chunkAux] at hr
    | cons a as => simp [chunkAux] at hr
  | succ f ih =>
    intro l r hr
    cases l with
    | nil => simp [chunkAux] at hr
    | cons a as =>
      have hr' : r = (a :: as).take k ∨ r ∈ chunkAux k f ((a :: as).drop k) := by
        simpa [chunkAux] using hr
      rcases hr' with h1 | h2
      · subst h1
        intro y hy
        exact List.take_subset k _ hy
      · intro y hy
        exact List.drop_subset k _ (ih _ r h2 y hy)

lemma chunkList_mem {α : Type} (k : Nat) (l : List α) (r : List α)
    (hr : r ∈ chunkList k l) : ∀ x ∈ r, x ∈ l := by
  unfold chunkList at hr
  by_cases h : k = 0
  · rw [if_pos h] at hr
    simp at hr
  · rw [if_neg h] at hr
    exact chunkAux_mem k l.length l r hr

lemma dropLast_getLastD_decomp {beta : Type} (l : List beta) (h : l ≠ []) (d : beta) :
    l.dropLast ++ [l.getLastD d] = l := by
  have hgl : l.getLastD d = l.getLast h := by
    rw [List.getLastD_eq_getLast?, List.getLast?_eq_getLast l h]
    rfl
  rw [hgl]
  exact List.dropLast_append_getLast h

lemma prod_decomp (l : List Nat) (h : l ≠ []) :
    l.prod = l.dropLast.prod * l.getLastD 1 := by
  conv_lhs => rw [← dropLast_getLastD_decomp l h 1]
  rw [List.prod_append, List.prod_cons, List.prod_nil, mul_one]

lemma getLastD_concat {beta : Type} (l : List beta) (a d : beta) :
    (l ++ [a]).getLastD d = a := by
  rw [List.getLastD_eq_getLast?, List.getLast?_concat]
  rfl

lemma broadcastShape_self (s : List Nat) : broadcastShape s s = s := by
  simp only [broadcastShape, Nat.max_self, Nat.sub_self, List.replicate_zero,
    List.nil_append, List.zipWith_same]
  simp [Nat.max_self]

lemma dotProd_zero_left {α : Type} [LinearOrderedCommRing α] [Div α]
    (v w : List α) (h : ∀ x ∈ v, x = 0) : dotProd v w = 0 := by
  unfold dotProd
  induction v generalizing w with
  | nil => simp
  | cons a v ih =>
    cases w with
    | nil => simp
    | cons b w =>
      rw [List.zipWith_cons_cons, List.sum_cons,
        h a (List.mem_cons_self a v), zero_mul, zero_add]
      apply ih
      intro x hx
      exact h x (List.mem_cons_of_mem a hx)

lemma zipWith_add_zero_right {α : Type} [LinearOrderedCommRing α]
    (v w : List α) (hw : ∀ x ∈ w, x = 0) (hlen : v.length ≤ w.length) :
    List.zipWith (· + ·) v w = v := by
  induction v generalizing w with
  | nil => simp
  | cons a v ih =>
    cases w with
    | nil => simp at hlen
    | cons b w =>
      rw [List.zipWith_cons_cons, hw b (List.mem_cons_self b w), add_zero]
      congr 1
      apply ih
      · intro x hx
        exact hw x (List.mem_cons_of_mem b hx)
      · simpa using hlen

lemma NDArray.mk_fields {α : Type} (a b : NDArray α) (h1 : a.shape = b.shape)
    (h2 : a.data = b.data) : a = b := by
  cases a
  cases b
  cases h1
  cases h2
  rfl

/-- C7 (amended): on a model with retained all-zero residuals,
evaluate_boot with the identity permutation returns exactly the values of
evaluate_at — the flattened data agree — but evaluate_boot never reshapes:
its shape is the voxel shape extended by the number of flattened query
points, while evaluate_at reshapes to the voxel shape extended by the
broadcast shape of (theta, phi); the two outputs are identical exactly
when that broadcast shape is already the one-dimensional flat shape.
The well-formedness hypotheses record that the model's arrays have
consistent numpy shapes, as every model built by ODF.__init__ has. -/
theorem C7_boot_identity {α : Type} [LinearOrderedCommRing α] [Div α]
    (rsh : Int → Int → α → α → α) (o : ODF α) (r : NDArray α)
    (theta_e phi_e : NDArray α)
    (hr : o.resid = some r)
    (hz : ∀ x ∈ r.data, x = 0)
    (hL0 : 0 ≤ o.sh_order) (hL2 : o.sh_order % 2 = 0)
    (hng : 0 < o.ngrad)
    (hshape : theta_e.shape = phi_e.shape)
    (hlen : phi_e.data.length = theta_e.data.length)
    (hflat : theta_e.data.length = theta_e.shape.prod)
    (hcs : o.coef.shape ≠ [])
    (hcwf : o.coef.data.length = o.coef.shape.prod)
    (hck : 0 < o.coef.shape.getLastD 1)
    (hq : (o.fit_matrix.headD []).length = o.coef.shape.getLastD 1)
    (hrs : r.shape ≠ [])
    (hrd : r.shape.dropLast = o.coef.shape.dropLast)
    (hrwf : r.data.length = r.shape.prod)
    (hrk : 0 < r.shape.getLastD 1) :
    ∃ D, ODF.evaluate_boot rsh o theta_e phi_e (List.range o.ngrad)
        = .ok ⟨o.coef.shape.dropLast ++ [theta_e.data.length], D⟩
      ∧ ODF.evaluate_at rsh o theta_e phi_e
        = .ok ⟨o.coef.shape.dropLast ++ broadcastShape theta_e.shape phi_e.shape, D⟩
      ∧ (broadcastShape theta_e.shape phi_e.shape = [theta_e.data.length] →
          ODF.evaluate_boot rsh o theta_e phi_e (List.range o.ngrad)
            = ODF.evaluate_at rsh o theta_e phi_e) := by
  obtain ⟨k, hk⟩ : ∃ k : Nat, o.sh_order = 2 * (k : Int) :=
    ⟨o.sh_order.toNat / 2, by omega⟩
  have hbs : broadcastShape theta_e.shape phi_e.shape = theta_e.shape := by
    rw [← hshape, broadcastShape_self]
  have hzip_len : ((mListSpec k).zip (nListSpec k)).length = (k + 1) * (2 * k + 1) := by
    rw [List.length_zip, mListSpec_length, nListSpec_length, min_self]
  have hzip_ne : (mListSpec k).zip (nListSpec k) ≠ [] := by
    intro hcon
    rw [hcon] at hzip_len
    simp at hzip_len
  obtain ⟨p, ps, hps⟩ := List.exists_cons_of_ne_nil hzip_ne
  have hP : ((mkCompMat rsh (mListSpec k) (nListSpec k)
      theta_e.data phi_e.data).headD []).length = theta_e.data.length := by
    unfold mkCompMat
    rw [hps, List.map_cons, List.headD_cons, List.length_map, List.length_zip,
      hlen, min_self]
  have hF_len : ∀ fr ∈ r.rows.map
      (fun row => (List.range o.ngrad).map (fun j => row.getD j 0)),
      fr.length = o.ngrad := by
    intro fr hfr
    simp only [List.mem_map] at hfr
    obtain ⟨row, _, rfl⟩ := hfr
    rw [List.length_map, List.length_range]
  have hF_zero : ∀ fr ∈ r.rows.map
      (fun row => (List.range o.ngrad).map (fun j => row.getD j 0)),
      ∀ x ∈ fr, x = 0 := by
    intro fr hfr x hx
    simp only [List.mem_map] at hfr
    obtain ⟨row, hrow, rfl⟩ := hfr
    simp only [List.mem_map] at hx
    obtain ⟨j, _, rfl⟩ := hx
    by_cases hj : j < row.length
    · rw [List.getD_eq_getElem _ _ hj]
      exact hz _ (chunkList_mem _ _ _ hrow _ (List.getElem_mem hj))
    · exact List.getD_eq_default _ _ (by omega)
  have hcount_r : r.rows.length = r.shape.dropLast.prod := by
    apply chunkList_length_exact _ _ hrk
    rw [hrwf, prod_decomp r.shape hrs]
  have hinner : npDotMat (r.indexLast (List.range o.ngrad)) o.fit_matrix
      = ⟨o.coef.shape,
         ((r.rows.map (fun row => (List.range o.ngrad).map (fun j => row.getD j 0))).map
           (fun fr => (List.range (o.fit_matrix.headD []).length).map
             (fun j => dotProd fr (matCol o.fit_matrix j)))).flatten⟩ := by
    apply NDArray.mk_fields
    · show (r.indexLast (List.range o.ngrad)).shape.dropLast
          ++ [(o.fit_matrix.headD []).length] = o.coef.shape
      show (r.shape.dropLast ++ [(List.range o.ngrad).length]).dropLast
          ++ [(o.fit_matrix.headD []).length] = o.coef.shape
      rw [List.dropLast_concat, hq, hrd]
      exact dropLast_getLastD_decomp o.coef.shape hcs 1
    · show ((r.indexLast (List.range o.ngrad)).rows.map _).flatten = _
      have hrows_eq : (r.indexLast (List.range o.ngrad)).rows
          = r.rows.map (fun row => (List.range o.ngrad).map (fun j => row.getD j 0)) := by
        show chunkList ((r.shape.dropLast ++ [(List.range o.ngrad).length]).getLastD 1)
            ((r.rows.map (fun row => (List.range o.ngrad).map (fun j => row.getD j 0))).flatten)
          = _
        rw [getLastD_concat, List.length_range]
        exact chunk_flatten _ hng _ hF_len
      rw [hrows_eq]
  have hZ_zero : ∀ x ∈ ((r.rows.map
      (fun row => (List.range o.ngrad).map (fun j => row.getD j 0))).map
        (fun fr => (List.range (o.fit_matrix.headD []).length).map
          (fun j => dotProd fr (matCol o.fit_matrix j)))).flatten, x = 0 := by
    intro x hx
    simp only [List.mem_flatten, List.mem_map] at hx
    obtain ⟨blk, ⟨fr, hfr, rfl⟩, hxblk⟩ := hx
    simp only [List.mem_map] at hxblk
    obtain ⟨j, _, rfl⟩ := hxblk
    refine dotProd_zero_left _ _ ?_
    intro y hy
    exact hF_zero fr (by simpa using hfr) y hy
  have hZ_len : (((r.rows.map
      (fun row => (List.range o.ngrad).map (fun j => row.getD j 0))).map
        (fun fr => (List.range (o.fit_matrix.headD []).length).map
          (fun j => dotProd fr (matCol o.fit_matrix j)))).flatten).length
      = o.coef.shape.dropLast.prod * (o.fit_matrix.headD []).length := by
    rw [List.length_flatten, List.map_map]
    have hconst : (List.length ∘ fun fr =>
        (List.range (o.fit_matrix.headD []).length).map
          (fun j => dotProd fr (matCol o.fit_matrix j)))
        = fun _ : List α => (o.fit_matrix.headD []).length := by
      funext fr
      simp
    rw [hconst, List.map_const', List.sum_replicate, smul_eq_mul,
      List.length_map, hcount_r, hrd]
  have hadj : npAdd o.coef (npDotMat (r.indexLast (List.range o.ngrad)) o.fit_matrix)
      = o.coef := by
    rw [hinner]
    simp only [npAdd]
    rw [broadcastShape_self]
    rw [zipWith_add_zero_right _ _ hZ_zero
      (le_of_eq (by rw [hZ_len, hcwf, prod_decomp o.coef.shape hcs, hq]))]
  have hboot : ODF.evaluate_boot rsh o theta_e phi_e (List.range o.ngrad)
      = .ok (npDotMat o.coef (mkCompMat rsh (mListSpec k) (nListSpec k)
          theta_e.data phi_e.data)) := by
    simp only [ODF.evaluate_boot, hk, sph_harm_ind_list_eval k, hr]
    rw [hadj]
  have hcount_c : o.coef.rows.length = o.coef.shape.dropLast.prod := by
    apply chunkList_length_exact _ _ hck
    rw [hcwf, prod_decomp o.coef.shape hcs]
  have hvlen : (npDotMat o.coef (mkCompMat rsh (mListSpec k) (nListSpec k)
      theta_e.data phi_e.data)).data.length
      = o.coef.shape.dropLast.prod * theta_e.data.length := by
    show ((o.coef.rows.map _).flatten).length = _
    rw [List.length_flatten, List.map_map]
    have hconst : (List.length ∘ fun row =>
        (List.range ((mkCompMat rsh (mListSpec k) (nListSpec k)
          theta_e.data phi_e.data).headD []).length).map
          (fun j => dotProd row (matCol (mkCompMat rsh (mListSpec k) (nListSpec k)
            theta_e.data phi_e.data) j)))
        = fun _ : List α => ((mkCompMat rsh (mListSpec k) (nListSpec k)
          theta_e.data phi_e.data).headD []).length := by
      funext row
      simp
    rw [hconst, List.map_const', List.sum_replicate, smul_eq_mul, hcount_c, hP]
  have hvshape : (npDotMat o.coef (mkCompMat rsh (mListSpec k) (nListSpec k)
      theta_e.data phi_e.data)).shape
      = o.coef.shape.dropLast ++ [theta_e.data.length] := by
    show o.coef.shape.dropLast ++ [((mkCompMat rsh (mListSpec k) (nListSpec k)
      theta_e.data phi_e.data).headD []).length] = _
    rw [hP]
  have hat : ODF.evaluate_at rsh o theta_e phi_e
      = .ok ⟨o.coef.shape.dropLast ++ broadcastShape theta_e.shape phi_e.shape,
          (npDotMat o.coef (mkCompMat rsh (mListSpec k) (nListSpec k)
            theta_e.data phi_e.data)).data⟩ := by
    simp only [ODF.evaluate_at, hk, sph_harm_ind_list_eval k, NDArray.setShape,
      ODF.shape]
    rw [if_pos]
    rw [List.prod_append, hbs, ← hflat, hvlen]
  refine ⟨(npDotMat o.coef (mkCompMat rsh (mListSpec k) (nListSpec k)
    theta_e.data phi_e.data)).data, ?_, hat, ?_⟩
  · rw [hboot]
    congr 1
    apply NDArray.mk_fields
    · exact hvshape
    · rfl
  · intro hbr
    rw [hboot, hat]
    congr 2
    · apply NDArray.mk_fields
      · rw [hvshape, hbr]
      · rfl

/-- C7 counterexample: on a zero-residual model queried with the identity
permutation and a two-dimensional (1, 1)-shaped query, evaluate_at
reshapes its output to voxel shape ++ broadcast shape (here [1, 1, 1])
while evaluate_boot returns the un-reshaped [1, 1] array: the outputs are
not identical, refuting the claim's shape clause. -/
theorem C7_counterexample :
    ODF.evaluate_boot (fun _ _ _ _ => (1 : Int))
        (⟨0, 1, [[1]], ⟨[1, 1], [0]⟩, ⟨[1, 1], [5]⟩, some ⟨[1, 1], [0]⟩⟩ : ODF Int)
        ⟨[1, 1], [3]⟩ ⟨[1, 1], [3]⟩ [0]
      = .ok ⟨[1, 1], [5]⟩
    ∧ ODF.evaluate_at (fun _ _ _ _ => (1 : Int))
        (⟨0, 1, [[1]], ⟨[1, 1], [0]⟩, ⟨[1, 1], [5]⟩, some ⟨[1, 1], [0]⟩⟩ : ODF Int)
        ⟨[1, 1], [3]⟩ ⟨[1, 1], [3]⟩
      = .ok ⟨[1, 1, 1], [5]⟩
    ∧ ([0] : List Nat) = List.range 1
    ∧ (Except.ok (⟨[1, 1], [5]⟩ : NDArray Int)
        ≠ (.ok ⟨[1, 1, 1], [5]⟩ : Except PyError (NDArray Int))) := by
  refine ⟨?_, ?_, ?_, ?_⟩
  · decide
  · decide
  · decide
  · decide

theorem C7_witness :
    ∃ D, ODF.evaluate_boot (fun _ _ _ _ => (1 : Int))
        (⟨0, 1, [[1]], ⟨[1, 1], [0]⟩, ⟨[1, 1], [5]⟩, some ⟨[1, 1], [0]⟩⟩ : ODF Int)
        ⟨[1], [3]⟩ ⟨[1], [3]⟩ (List.range 1)
        = .ok ⟨[1, 1], D⟩
      ∧ ODF.evaluate_at (fun _ _ _ _ => (1 : Int))
        (⟨0, 1, [[1]], ⟨[1, 1], [0]⟩, ⟨[1, 1], [5]⟩, some ⟨[1, 1], [0]⟩⟩ : ODF Int)
        ⟨[1], [3]⟩ ⟨[1], [3]⟩
        = .ok ⟨[1] ++ broadcastShape [1] [1], D⟩
      ∧ (broadcastShape [1] [1] = [1] →
          ODF.evaluate_boot (fun _ _ _ _ => (1 : Int))
            (⟨0, 1, [[1]], ⟨[1, 1], [0]⟩, ⟨[1, 1], [5]⟩, some ⟨[1, 1], [0]⟩⟩ : ODF Int)
            ⟨[1], [3]⟩ ⟨[1], [3]⟩ (List.range 1)
          = ODF.evaluate_at (fun _ _ _ _ => (1 : Int))
            (⟨0, 1, [[1]], ⟨[1, 1], [0]⟩, ⟨[1, 1], [5]⟩, some ⟨[1, 1], [0]⟩⟩ : ODF Int)
            ⟨[1], [3]⟩ ⟨[1], [3]⟩) :=
  C7_boot_identity (fun _ _ _ _ => (1 : Int))
    ⟨0, 1, [[1]], ⟨[1, 1], [0]⟩, ⟨[1, 1], [5]⟩, some ⟨[1, 1], [0]⟩⟩
    ⟨[1, 1], [0]⟩ ⟨[1], [3]⟩ ⟨[1], [3]⟩
    rfl (by decide) (by decide) (by decide) (by decide) rfl rfl (by decide)
    (by decide) (by decide) (by decide) (by decide) (by decide) (by decide)
    (by decide) (by decide)
